import Mathlib

/-!
A verification development for the padme-demo frontend (`src/main.rs`):
the audio sample queue (`AudioPlayer::set_samples` / `play_frame`), the
LCD framebuffer (`Lcd::set_pixel`), the serial sink
(`SerialConsole::putchar`) and the frame-pacing main loop.

Sample values are `f32` in the source; the queue logic never computes with
them (they are only moved), so we model them by `Int`.  Durations are
modelled in nanoseconds as `Nat`.
-/

namespace PadmeDemo

/-- Audio sample values; opaque to the queue logic, modelled as `Int`. -/
abbrev Sample := Int

/-- `AUDIO_SAMPLE_RATE` is imported from `padme_core`; the source's device
configuration comment ("sample rate = 48kHz") and the spec fix it at 48000. -/
def AUDIO_SAMPLE_RATE : Nat := 48000

/-- The bound computed inside `AudioPlayer::set_samples`:
`let max_len = ((AUDIO_SAMPLE_RATE * 300) / 1000) as usize;`. -/
def max_len : Nat := AUDIO_SAMPLE_RATE * 300 / 1000

/-- Modelled from the spec: `max_queue_samples = sample_rate * 300ms_in_samples`,
the spec's bound on the queue length in stereo pairs (48000 × 0.3 = 14400). -/
def max_queue_samples : Nat := AUDIO_SAMPLE_RATE * 300 / 1000

/-- `AudioPlayer::set_samples(left, right)` (src/main.rs:69-77): if the
current buffer length (in interleaved floats) is below `max_len`, push
`left` then `right` at the back; otherwise do nothing. -/
def set_samples (left right : Sample) (sample_buf : List Sample) : List Sample :=
  if sample_buf.length < max_len then sample_buf ++ [left, right] else sample_buf

/-- `play_frame(outbuffer, sample_buf)` (src/main.rs:14-21): drain
`min(outbuffer.len(), sample_buf.len())` samples from the front of the
queue and write them into the first slots of `outbuffer`; the remaining
slots of `outbuffer` are not written.  Returns the resulting
`(outbuffer, sample_buf)`.  (`cpal::Sample::from` is the identity at the
f32 output format the stream is built with.) -/
def play_frame (outbuffer sample_buf : List Sample) : List Sample × List Sample :=
  let k := min outbuffer.length sample_buf.length
  (sample_buf.take k ++ outbuffer.drop k, sample_buf.drop k)

/-- Queue length in stereo pairs. -/
def pairs (sample_buf : List Sample) : Nat := sample_buf.length / 2

/-- A burst of `set_samples` calls with no intervening drains. -/
def pushAll (ps : List (Sample × Sample)) (sample_buf : List Sample) : List Sample :=
  ps.foldl (fun b p => set_samples p.1 p.2 b) sample_buf

theorem max_len_eq : max_len = 14400 := by
  norm_num [max_len, AUDIO_SAMPLE_RATE]

theorem max_queue_samples_eq : max_queue_samples = 14400 := by
  norm_num [max_queue_samples, AUDIO_SAMPLE_RATE]

/-- Length of the queue after a burst of pushes: each push appends two
samples while the float count is below `max_len`, so from an even start
the length is clipped at exactly `max_len`. -/
theorem pushAll_length (ps : List (Sample × Sample)) :
    ∀ sample_buf : List Sample, sample_buf.length % 2 = 0 →
      sample_buf.length ≤ max_len →
      (pushAll ps sample_buf).length =
        min (sample_buf.length + 2 * ps.length) max_len := by
  induction ps with
  | nil =>
    intro buf _ hle
    simp [pushAll]
    omega
  | cons p ps ih =>
    intro buf heven hle
    have h14400 : max_len = 14400 := max_len_eq
    show (pushAll ps (set_samples p.1 p.2 buf)).length = _
    by_cases h : buf.length < max_len
    · have hlen : (set_samples p.1 p.2 buf).length = buf.length + 2 := by
        simp [set_samples, h]
      have heven2 : (set_samples p.1 p.2 buf).length % 2 = 0 := by omega
      have hle2 : (set_samples p.1 p.2 buf).length ≤ max_len := by omega
      rw [ih _ heven2 hle2, hlen]
      simp only [List.length_cons, h14400]
      omega
    · have hlen : (set_samples p.1 p.2 buf).length = buf.length := by
        simp [set_samples, h]
      have heven2 : (set_samples p.1 p.2 buf).length % 2 = 0 := by omega
      have hle2 : (set_samples p.1 p.2 buf).length ≤ max_len := by omega
      rw [ih _ heven2 hle2, hlen]
      simp only [List.length_cons, h14400]
      omega

/-- `SerialConsole::putchar(c)` (src/main.rs:135-137) is
`self.file.write(&[c]).unwrap()`.  The outcome of the underlying
`File::write` call is an input of the model; `unwrap` turns an `Err` into
a panic, modelled as propagating the error. -/
def putchar (_c : Nat) (write_result : Except String Nat) : Except String Unit :=
  match write_result with
  | .ok _ => .ok ()
  | .error e => .error e

/-- C1 counterexample: with output buffer `[5]` and an empty queue,
`play_frame` leaves the buffer as `[5]`; the unfilled slot is not set to
the silence value `0` as the claim states. -/
theorem play_frame_no_zero_fill_cex :
    (play_frame [5] ([] : List Sample)).1 = [5] ∧ ([5] : List Sample) ≠ [0] := by
  decide

/-- C1 (amended): `play_frame` writes the first
`k = min(outbuffer.len, queue.len)` queued samples, in FIFO order, into the
first `k` slots of the output buffer and removes exactly those samples
from the queue; every remaining slot of the output buffer retains its
previous value (no zero fill), and the buffer length is unchanged. -/
theorem play_frame_spec (outbuffer sample_buf : List Sample) (k : Nat)
    (hk : k = min outbuffer.length sample_buf.length) :
    (play_frame outbuffer sample_buf).1.length = outbuffer.length ∧
    (∀ i, i < k → (play_frame outbuffer sample_buf).1[i]? = sample_buf[i]?) ∧
    (∀ i, k ≤ i → (play_frame outbuffer sample_buf).1[i]? = outbuffer[i]?) ∧
    (play_frame outbuffer sample_buf).2 = sample_buf.drop k ∧
    sample_buf.take k ++ (play_frame outbuffer sample_buf).2 = sample_buf := by
  subst hk
  have h1 : (play_frame outbuffer sample_buf).1 =
      sample_buf.take (min outbuffer.length sample_buf.length) ++
        outbuffer.drop (min outbuffer.length sample_buf.length) := rfl
  have h2 : (play_frame outbuffer sample_buf).2 =
      sample_buf.drop (min outbuffer.length sample_buf.length) := rfl
  have hkm : min outbuffer.length sample_buf.length ≤ sample_buf.length :=
    min_le_right _ _
  have hkn : min outbuffer.length sample_buf.length ≤ outbuffer.length :=
    min_le_left _ _
  refine ⟨?_, ?_, ?_, h2, ?_⟩
  · rw [h1]
    simp only [List.length_append, List.length_take, List.length_drop]
    omega
  · intro i hi
    rw [h1, List.getElem?_append_left (by simp only [List.length_take]; omega),
      List.getElem?_take_of_lt hi]
  · intro i hik
    rw [h1, List.getElem?_append_right (by simp only [List.length_take]; omega),
      List.getElem?_drop]
    simp only [List.length_take]
    rw [show min outbuffer.length sample_buf.length +
        (i - min (min outbuffer.length sample_buf.length) sample_buf.length) = i
      from by omega]
  · rw [h2, List.take_append_drop]

/-- Witness for C1's amended theorem at output buffer `[10, 20, 30]` and
queue `[1, 2]`. -/
theorem play_frame_spec_witness :
    (play_frame [10, 20, 30] [1, 2]).1[1]? = [(1 : Sample), 2][1]? ∧
    (play_frame [10, 20, 30] [1, 2]).1[2]? = [(10 : Sample), 20, 30][2]? ∧
    (play_frame [10, 20, 30] [1, 2]).2 = List.drop 2 [(1 : Sample), 2] :=
  ⟨(play_frame_spec [10, 20, 30] [1, 2] 2 (by decide)).2.1 1 (by decide),
   (play_frame_spec [10, 20, 30] [1, 2] 2 (by decide)).2.2.1 2 (by decide),
   (play_frame_spec [10, 20, 30] [1, 2] 2 (by decide)).2.2.2.1⟩

/-- C2: evaluating `set_samples` at the spec's scenario: 20000 pushes with
no drains, starting from the empty queue, leave 14400 interleaved floats,
i.e. 7200 stereo pairs — not the 14400 pairs the claim requires.  The cap
compares the float count against `max_len = 14400`, so it stores 150 ms of
stereo audio, contradicting the code's own "300ms of samples" comment. -/
theorem set_samples_burst (ps : List (Sample × Sample)) (h : ps.length = 20000) :
    pairs (pushAll ps []) = 7200 ∧ pairs (pushAll ps []) ≠ 14400 := by
  have hlen := pushAll_length ps [] (by simp) (by simp)
  rw [h] at hlen
  simp only [List.length_nil, Nat.zero_add] at hlen
  have h14 := max_len_eq
  have hval : (pushAll ps []).length = 14400 := by omega
  constructor <;> simp [pairs, hval]

/-- Witness for C2's theorem: a concrete burst of 20000 pushes. -/
theorem set_samples_burst_witness :
    pairs (pushAll (List.replicate 20000 ((0 : Sample), (0 : Sample))) []) = 7200 :=
  (set_samples_burst _ (by rw [List.length_replicate])).1

/-- C3 counterexample: a failing underlying write makes `putchar` panic
(the error propagates); the call does not return normally. -/
theorem putchar_error_cex :
    putchar 65 (Except.error "disk full") ≠ Except.ok () := by
  simp [putchar]

/-- C3 (amended): `putchar` propagates the outcome of the underlying
`File::write`: on `Err e` it panics with `e` (modelled as returning the
error), and it returns normally exactly when the write succeeded. -/
theorem putchar_propagates (c : Nat) (w : Except String Nat) :
    (∀ e, w = Except.error e → putchar c w = Except.error e) ∧
    (∀ n, w = Except.ok n → putchar c w = Except.ok ()) := by
  constructor <;> rintro x rfl <;> rfl

/-- Witness for C3's amended theorem at byte 65 and a failing write. -/
theorem putchar_propagates_witness :
    putchar 65 (Except.error "disk full") = Except.error "disk full" :=
  (putchar_propagates 65 (Except.error "disk full")).1 "disk full" rfl

/-- C5: over any burst of pushes from the empty queue the length in stereo
pairs never exceeds `max_queue_samples`, and once the float count has
reached `max_len` a further `set_samples` call leaves the queue completely
unchanged. -/
theorem queue_bounded (ps : List (Sample × Sample)) (left right : Sample)
    (buf : List Sample) (h : max_len ≤ buf.length) :
    pairs (pushAll ps []) ≤ max_queue_samples ∧ set_samples left right buf = buf := by
  constructor
  · have hlen := pushAll_length ps [] (by simp) (by simp)
    simp only [List.length_nil, Nat.zero_add] at hlen
    have h14 := max_len_eq
    have hq := max_queue_samples_eq
    simp only [pairs]
    omega
  · simp only [set_samples, if_neg (Nat.not_lt.mpr h)]

/-- Witness for C5's theorem at a queue already holding 14400 floats. -/
theorem queue_bounded_witness :
    max_len ≤ (List.replicate 14400 (0 : Sample)).length ∧
    (pairs (pushAll [] []) ≤ max_queue_samples ∧
      set_samples 1 2 (List.replicate 14400 (0 : Sample)) =
        List.replicate 14400 (0 : Sample)) :=
  ⟨by rw [List.length_replicate, max_len_eq],
   queue_bounded [] 1 2 _ (by rw [List.length_replicate, max_len_eq])⟩

/-- One operation on the shared sample queue: a producer-side
`set_samples` call, or a consumer-side `play_frame` callback invoked with
the given output buffer. -/
inductive Op
  | push (left right : Sample)
  | fill (outbuffer : List Sample)

/-- The queue together with the observable history of a run: the flattened
pairs accepted into the queue by `set_samples`, and the samples handed to
the device by `play_frame`. -/
structure AudioTrace where
  queue : List Sample
  accepted : List Sample
  delivered : List Sample

/-- Effect of one operation on the queue, recording what was accepted and
what was delivered. -/
def stepOp (st : AudioTrace) : Op → AudioTrace
  | .push left right =>
    { queue := set_samples left right st.queue
      accepted :=
        if st.queue.length < max_len then st.accepted ++ [left, right]
        else st.accepted
      delivered := st.delivered }
  | .fill outbuffer =>
    { queue := (play_frame outbuffer st.queue).2
      accepted := st.accepted
      delivered := st.delivered ++
        st.queue.take (min outbuffer.length st.queue.length) }

/-- A whole interleaving of pushes and fills, from the startup state. -/
def runOps (ops : List Op) : AudioTrace :=
  ops.foldl stepOp ⟨[], [], []⟩

theorem stepOp_acc (st : AudioTrace) (op : Op)
    (h : st.accepted = st.delivered ++ st.queue) :
    (stepOp st op).accepted = (stepOp st op).delivered ++ (stepOp st op).queue := by
  cases op with
  | push left right =>
    by_cases hlt : st.queue.length < max_len
    · simp [stepOp, set_samples, hlt, h, List.append_assoc]
    · simp [stepOp, set_samples, hlt, h]
  | fill outbuffer =>
    have h2 : (play_frame outbuffer st.queue).2 =
        st.queue.drop (min outbuffer.length st.queue.length) := rfl
    simp only [stepOp, h2, h, List.append_assoc, List.take_append_drop]

theorem foldl_stepOp_acc (ops : List Op) :
    ∀ st : AudioTrace, st.accepted = st.delivered ++ st.queue →
      (ops.foldl stepOp st).accepted =
        (ops.foldl stepOp st).delivered ++ (ops.foldl stepOp st).queue := by
  induction ops with
  | nil => intro st h; exact h
  | cons op ops ih => intro st h; exact ih _ (stepOp_acc st op h)

/-- C6: over every interleaving of pushes and fills, the samples ever
delivered followed by the samples still queued are exactly the samples
accepted into the queue, in production order; in particular the delivered
stream is a prefix of the accepted stream (FIFO, and only the newest
incoming pair is ever discarded, by never being accepted). -/
theorem audio_fifo (ops : List Op) :
    (runOps ops).accepted = (runOps ops).delivered ++ (runOps ops).queue ∧
    List.IsPrefix (runOps ops).delivered (runOps ops).accepted := by
  have h := foldl_stepOp_acc ops ⟨[], [], []⟩ rfl
  exact ⟨h, ⟨(runOps ops).queue, h.symm⟩⟩

/-- C4 counterexample: a fill whose output buffer has odd length 1 leaves
the queue with odd length — the claim fails as stated for odd-length
output buffers. -/
theorem queue_even_cex :
    (runOps [Op.push 1 2, Op.fill [0]]).queue = [2] ∧
    ¬ Even (runOps [Op.push 1 2, Op.fill [0]]).queue.length := by
  decide

theorem foldl_stepOp_even (ops : List Op) :
    ∀ st : AudioTrace, Even st.queue.length →
      (∀ outbuffer, Op.fill outbuffer ∈ ops → Even outbuffer.length) →
      Even ((ops.foldl stepOp st).queue.length) := by
  induction ops with
  | nil => intro st h _; exact h
  | cons op ops ih =>
    intro st hst hall
    apply ih
    · cases op with
      | push left right =>
        show Even ((set_samples left right st.queue).length)
        rw [Nat.even_iff] at hst ⊢
        by_cases hlt : st.queue.length < max_len
        · simp only [set_samples, if_pos hlt, List.length_append,
            List.length_cons, List.length_nil]
          omega
        · simp only [set_samples, if_neg hlt]
          exact hst
      | fill outbuffer =>
        have hb : Even outbuffer.length := hall outbuffer (List.mem_cons_self _ _)
        show Even ((play_frame outbuffer st.queue).2.length)
        have h2 : (play_frame outbuffer st.queue).2 =
            st.queue.drop (min outbuffer.length st.queue.length) := rfl
        rw [h2, List.length_drop, Nat.even_iff]
        rw [Nat.even_iff] at hst hb
        omega
    · intro b hb
      exact hall b (List.mem_cons_of_mem _ hb)

/-- C4 (amended): over every interleaving of pushes and fills from the
empty queue in which every fill's output buffer has even length, the queue
length stays even (complete stereo pairs); an odd-length fill can break
it. -/
theorem queue_even (ops : List Op)
    (h : ∀ outbuffer, Op.fill outbuffer ∈ ops → Even outbuffer.length) :
    Even ((runOps ops).queue.length) :=
  foldl_stepOp_even ops ⟨[], [], []⟩ ⟨0, rfl⟩ h

/-- Witness for C4's amended theorem on a concrete interleaving with an
even-length fill. -/
theorem queue_even_witness :
    Even ((runOps [Op.push 1 2, Op.fill [3, 4]]).queue.length) :=
  queue_even _ (by
    intro b hb
    simp only [List.mem_cons, List.not_mem_nil, or_false] at hb
    rcases hb with h | h
    · exact absurd h (by simp)
    · cases h
      decide)

/-- What the main loop reads from the window for one iteration: the
head-of-loop close check (`!win.is_open() || win.is_key_down(Key::Escape)`)
and the measured elapsed time `t0.elapsed()` of the body, in nanoseconds. -/
structure IterInput where
  shouldClose : Bool
  frame_time : Nat

/-- Observable actions of the main loop (src/main.rs:159-189): one
`emu.update_frame()` call, or one `thread::sleep(d)` call. -/
inductive Event
  | step
  | sleep (d : Nat)

/-- The events of one executed loop body: exactly one `update_frame`
step, then `thread::sleep(min_frame_time - frame_time)` iff
`frame_time < min_frame_time`. -/
def iterEvents (min_frame_time frame_time : Nat) : List Event :=
  Event.step ::
    (if frame_time < min_frame_time
      then [Event.sleep (min_frame_time - frame_time)] else [])

/-- The main loop: the close check runs at each loop head; while it
signals continue, one body executes. -/
def runLoop (min_frame_time : Nat) : List IterInput → List Event
  | [] => []
  | it :: rest =>
    if it.shouldClose then []
    else iterEvents min_frame_time it.frame_time ++ runLoop min_frame_time rest

def isStep : Event → Bool
  | .step => true
  | .sleep _ => false

/-- Number of `update_frame` calls in a run of the loop. -/
def countSteps (events : List Event) : Nat := (events.filter isStep).length

theorem countSteps_append (a b : List Event) :
    countSteps (a ++ b) = countSteps a + countSteps b := by
  simp [countSteps, List.filter_append]

theorem countSteps_iterEvents (min_frame_time frame_time : Nat) :
    countSteps (iterEvents min_frame_time frame_time) = 1 := by
  by_cases h : frame_time < min_frame_time <;>
    simp [countSteps, iterEvents, isStep, h]

theorem countSteps_runLoop (min_frame_time : Nat) (ins : List IterInput) :
    countSteps (runLoop min_frame_time ins) =
      (ins.takeWhile (fun it => !it.shouldClose)).length := by
  induction ins with
  | nil => simp [runLoop, countSteps]
  | cons it rest ih =>
    cases hc : it.shouldClose
    · rw [show runLoop min_frame_time (it :: rest) =
          iterEvents min_frame_time it.frame_time ++ runLoop min_frame_time rest
        from by simp [runLoop, hc]]
      rw [countSteps_append, countSteps_iterEvents, ih,
        List.takeWhile_cons, hc]
      simp [Nat.add_comm]
    · rw [show runLoop min_frame_time (it :: rest) = [] from by simp [runLoop, hc]]
      rw [List.takeWhile_cons, hc]
      simp [countSteps]

/-- C7: in every executed iteration of the loop the controller performs,
after its single step, a blocking sleep of exactly
`min_frame_time - frame_time` when `frame_time < min_frame_time`, and no
sleep at all when `min_frame_time ≤ frame_time`. -/
theorem pacing_sleep (min_frame_time frame_time : Nat) (rest : List IterInput) :
    (frame_time < min_frame_time →
      runLoop min_frame_time (⟨false, frame_time⟩ :: rest) =
        Event.step :: Event.sleep (min_frame_time - frame_time) ::
          runLoop min_frame_time rest) ∧
    (min_frame_time ≤ frame_time →
      runLoop min_frame_time (⟨false, frame_time⟩ :: rest) =
        Event.step :: runLoop min_frame_time rest) := by
  constructor
  · intro h
    simp [runLoop, iterEvents, h]
  · intro h
    simp [runLoop, iterEvents, Nat.not_lt.mpr h]

/-- Witness for C7's theorem: a lagging iteration (5 ≥ 3) sleeps nothing,
a fast one (1 < 3) sleeps exactly the difference 2. -/
theorem pacing_sleep_witness :
    runLoop 3 [⟨false, 1⟩] = [Event.step, Event.sleep 2] ∧
    runLoop 3 [⟨false, 5⟩] = [Event.step] :=
  ⟨(pacing_sleep 3 1 []).1 (by decide), (pacing_sleep 3 5 []).2 (by decide)⟩

/-- C8: the loop performs exactly one `update_frame` step per executed
iteration — the number of steps of a run equals the number of iterations
before the first observed close signal, independent of the elapsed times —
and once the close signal is observed at a loop head, no further events
(in particular no steps) occur. -/
theorem loop_one_step_per_iteration (min_frame_time : Nat)
    (ins : List IterInput) (it : IterInput) (rest : List IterInput)
    (hclose : it.shouldClose = true) :
    countSteps (runLoop min_frame_time ins) =
      (ins.takeWhile (fun i => !i.shouldClose)).length ∧
    runLoop min_frame_time (it :: rest) = [] := by
  exact ⟨countSteps_runLoop min_frame_time ins, by simp [runLoop, hclose]⟩

/-- Witness for C8's theorem on a concrete schedule whose second iteration
observes the close signal. -/
theorem loop_one_step_per_iteration_witness :
    countSteps (runLoop 5 [⟨false, 1⟩, ⟨true, 9⟩, ⟨false, 2⟩]) =
      (([⟨false, 1⟩, ⟨true, 9⟩, ⟨false, 2⟩] : List IterInput).takeWhile
        (fun i => !i.shouldClose)).length ∧
    runLoop 5 [⟨true, 9⟩] = [] :=
  loop_one_step_per_iteration 5 [⟨false, 1⟩, ⟨true, 9⟩, ⟨false, 2⟩]
    ⟨true, 9⟩ [] rfl

/-- `Lcd::set_pixel(px, x, y)` (src/main.rs:105-108): writes `px.rgb()` at
row-major index `x + y * FRAME_WIDTH` of the framebuffer.  The source's
framebuffer is `[u32; FRAME_WIDTH * FRAME_HEIGHT]` with the constants
imported from `padme_core`, so the width is a parameter here and the
framebuffer a list of pixel words of length width × height; the `rgb`
argument stands for the value of `px.rgb()`.  An out-of-bounds index
panics in Rust, modelled by `none`. -/
def set_pixel (FRAME_WIDTH : Nat) (framebuffer : List Nat) (rgb x y : Nat) :
    Option (List Nat) :=
  let i := x + y * FRAME_WIDTH
  if i < framebuffer.length then some (framebuffer.set i rgb) else none

/-- The row-major index is in bounds whenever `x < FRAME_WIDTH` and
`y < FRAME_HEIGHT`. -/
theorem pixel_index_lt (FRAME_WIDTH FRAME_HEIGHT x y : Nat)
    (hx : x < FRAME_WIDTH) (hy : y < FRAME_HEIGHT) :
    x + y * FRAME_WIDTH < FRAME_WIDTH * FRAME_HEIGHT := by
  calc x + y * FRAME_WIDTH
      < FRAME_WIDTH + y * FRAME_WIDTH := Nat.add_lt_add_right hx _
    _ = (y + 1) * FRAME_WIDTH := by ring
    _ ≤ FRAME_HEIGHT * FRAME_WIDTH := Nat.mul_le_mul_right _ hy
    _ = FRAME_WIDTH * FRAME_HEIGHT := Nat.mul_comm _ _

/-- C9: under the caller-guaranteed precondition `x < FRAME_WIDTH`,
`y < FRAME_HEIGHT`, the index `x + y * FRAME_WIDTH` computed by
`set_pixel` lies within the `FRAME_WIDTH * FRAME_HEIGHT` framebuffer, so
the write succeeds (the out-of-bounds panic branch is unreachable). -/
theorem set_pixel_in_bounds (FRAME_WIDTH FRAME_HEIGHT rgb x y : Nat)
    (framebuffer : List Nat)
    (hfb : framebuffer.length = FRAME_WIDTH * FRAME_HEIGHT)
    (hx : x < FRAME_WIDTH) (hy : y < FRAME_HEIGHT) :
    (set_pixel FRAME_WIDTH framebuffer rgb x y).isSome := by
  have hlt : x + y * FRAME_WIDTH < framebuffer.length := by
    rw [hfb]
    exact pixel_index_lt FRAME_WIDTH FRAME_HEIGHT x y hx hy
  simp [set_pixel, hlt]

/-- Witness for C9's theorem on a 2 × 2 framebuffer at pixel (1, 1). -/
theorem set_pixel_in_bounds_witness :
    (set_pixel 2 [0, 0, 0, 0] 7 1 1).isSome :=
  set_pixel_in_bounds 2 2 7 1 1 [0, 0, 0, 0] rfl (by decide) (by decide)

/-- C10: under the precondition `x < FRAME_WIDTH`, `y < FRAME_HEIGHT`,
`set_pixel` succeeds and changes exactly one framebuffer entry: the
row-major entry at `x + y * FRAME_WIDTH` becomes `rgb` (the value of
`px.rgb()`), every other entry keeps its previous value, and the
framebuffer size is unchanged. -/
theorem set_pixel_frame_effect (FRAME_WIDTH FRAME_HEIGHT rgb x y : Nat)
    (framebuffer : List Nat)
    (hfb : framebuffer.length = FRAME_WIDTH * FRAME_HEIGHT)
    (hx : x < FRAME_WIDTH) (hy : y < FRAME_HEIGHT) :
    ∃ fb, set_pixel FRAME_WIDTH framebuffer rgb x y = some fb ∧
      fb.length = framebuffer.length ∧
      fb[x + y * FRAME_WIDTH]? = some rgb ∧
      ∀ j, j ≠ x + y * FRAME_WIDTH → fb[j]? = framebuffer[j]? := by
  have hlt : x + y * FRAME_WIDTH < framebuffer.length := by
    rw [hfb]
    exact pixel_index_lt FRAME_WIDTH FRAME_HEIGHT x y hx hy
  refine ⟨framebuffer.set (x + y * FRAME_WIDTH) rgb, ?_, ?_, ?_, ?_⟩
  · simp [set_pixel, hlt]
  · exact List.length_set framebuffer _ rgb
  · exact List.getElem?_set_self hlt
  · intro j hj
    exact List.getElem?_set_ne (Ne.symm hj)

/-- Witness for C10's theorem on a 2 × 2 framebuffer at pixel (1, 1). -/
theorem set_pixel_frame_effect_witness :
    ∃ fb, set_pixel 2 [0, 0, 0, 0] 7 1 1 = some fb ∧
      fb.length = ([0, 0, 0, 0] : List Nat).length ∧
      fb[1 + 1 * 2]? = some 7 ∧
      ∀ j, j ≠ 1 + 1 * 2 → fb[j]? = [0, 0, 0, 0][j]? :=
  set_pixel_frame_effect 2 2 7 1 1 [0, 0, 0, 0] rfl (by decide) (by decide)

end PadmeDemo
